import Mathlib

/-!
Verification development for the `llamajet-driver-ts` ClearCore driver
(`src/lib/clearcore.ts`).  The TypeScript source is shallowly embedded:
JavaScript string primitives (`split`, `trim`, `parseInt`, `slice`) are
modelled as executable Lean functions on `String`/`List Char`, the
promise-chain command dispatcher (`sendCommand`, lines 83–155) becomes an
explicit fold over a queue of submissions, and the domain operations
become pure functions from their arguments to the wire line they send.
-/

namespace ClearCore

/-! ## JavaScript string primitives -/

/-- Model of JavaScript `String.prototype.split(";")` at the character-list
level: splits on every `';'`, keeping empty chunks, and yields one chunk
even for the empty string (as JS does). -/
def splitSemiChars : List Char → List (List Char)
  | [] => [[]]
  | c :: cs =>
    if c = ';' then [] :: splitSemiChars cs
    else
      match splitSemiChars cs with
      | [] => [[c]]
      | f :: rest => (c :: f) :: rest

/-- Model of JavaScript `s.split(";")`. -/
def jsSplit (s : String) : List String :=
  (splitSemiChars s.data).map List.asString

/-- Model of JavaScript `String.prototype.trim()`: strips whitespace
(space, tab, CR, LF) from both ends. -/
def jsTrim (s : String) : String :=
  List.asString
    ((((s.data.dropWhile Char.isWhitespace).reverse).dropWhile Char.isWhitespace).reverse)

/-- Longest leading run of decimal digits, as a number; `none` when there
is no leading digit (JavaScript `NaN`). -/
def parseDigits (cs : List Char) : Option Nat :=
  let ds := cs.takeWhile Char.isDigit
  if ds.isEmpty then none
  else some (ds.foldl (fun a c => a * 10 + (c.toNat - 48)) 0)

/-- Model of JavaScript `parseInt(s, 10)`: skip leading whitespace, accept
an optional sign, then read the longest digit prefix, ignoring any
trailing characters; `none` models `NaN`. -/
def jsParseInt (s : String) : Option Int :=
  match s.data.dropWhile Char.isWhitespace with
  | '-' :: rest => (parseDigits rest).map (fun n => -(n : Int))
  | '+' :: rest => (parseDigits rest).map (fun n => (n : Int))
  | rest => (parseDigits rest).map (fun n => (n : Int))

/-- Model of JavaScript `Array.prototype.slice(2, -1)`: drop the first two
elements and the last one. -/
def jsSlice2Neg1 (l : List α) : List α :=
  (l.drop 2).dropLast

/-- Model of JavaScript `Array.prototype.join(";")`. -/
def joinSemi : List String → String
  | [] => ""
  | [f] => f
  | f :: rest => f ++ ";" ++ joinSemi rest

/-! ## Bitmask selectors

JavaScript bitwise operators coerce to 32-bit integers: the shift count of
`1 << motor` is taken mod 32, and the resulting bit pattern is what `|`
accumulates.  We model the 32-bit bit pattern as a `Nat < 2^32`; the sign
of bit 31 affects only decimal rendering, handled by `renderInt32`. -/

/-- The 32-bit pattern of JavaScript `1 << m`. -/
def jsShl1 (m : Nat) : Nat := 2 ^ (m % 32)

/-- `motors.reduce((acc, motor) => acc | (1 << motor), 0)`
(clearcore.ts line 196 and analogues). -/
def selector (ms : List Nat) : Nat :=
  ms.foldl (fun acc m => acc ||| jsShl1 m) 0

/-- Decimal rendering of a 32-bit pattern as JavaScript prints the number
(two's complement: patterns with bit 31 set print as negatives). -/
def renderInt32 (bits : Nat) : String :=
  if bits < 2 ^ 31 then toString bits
  else toString ((bits : Int) - 2 ^ 32)

/-! ## The command dispatcher (`sendCommand`, clearcore.ts lines 83–155)

`sendCommand` chains every exchange onto `this.commandQueue` via
`.then(onFulfilled)` **with no rejection handler**: when the previous
promise in the chain is rejected, the next exchange's callback is skipped
and the rejection propagates unchanged.  The model makes that explicit as
a `poisoned` component of the dispatcher state.

The environment's behaviour towards one exchange (which of the competing
`data` / timeout / `error` events fires first) is an `ExchangeEvent`
supplied with the submission; a failed `port.write` callback is a
transport error. -/

def MAX_COMMAND_ID : Nat := 1000000

/-- Lines 97–98: `this.commandIdCounter++; this.commandIdCounter %= MAX_COMMAND_ID;` -/
def counterStep (c : Nat) : Nat := (c + 1) % MAX_COMMAND_ID

/-- Identifier the dispatcher assigns to the k-th executed exchange of a
fresh instance (the counter starts at 0, line 47). -/
def assignedId (k : Nat) : Nat := counterStep^[k] 0

/-- Line 94: `` `${currentCommandId};${command}` ``. -/
def commandWithId (id : Nat) (command : String) : String :=
  toString id ++ ";" ++ command

/-- First event the exchange observes: a reply line from the line parser,
the timeout firing, or a transport error (including a failed write). -/
inductive ExchangeEvent where
  | reply (data : String)
  | timeout
  | transportError (msg : String)
deriving DecidableEq, Repr

/-- The three failure kinds an exchange can reject with. -/
inductive DriverError where
  | mismatch (msg : String)
  | timedOut (msg : String)
  | transport (msg : String)
deriving DecidableEq, Repr

/-- JavaScript template rendering of a number that may be `NaN`. -/
def renderParsed : Option Int → String
  | some n => toString n
  | none => "NaN"

/-- Line 115: `` `Command ID mismatch. Sent: ${currentCommandId}, Received: ${id}. Response: "${data}"` ``.
`data` is the raw (untrimmed) reply line. -/
def mismatchMessage (sent : Nat) (received : Option Int) (raw : String) : String :=
  "Command ID mismatch. Sent: " ++ toString sent ++ ", Received: " ++
    renderParsed received ++ ". Response: \"" ++ raw ++ "\""

/-- Line 135: `` `Command "${commandWithId}" timed out after ${timeoutMs}ms` ``. -/
def timeoutMessage (cmdWithId : String) (timeoutMs : Nat) : String :=
  "Command \"" ++ cmdWithId ++ "\" timed out after " ++ toString timeoutMs ++ "ms"

/-- Lines 108–111: `parseInt(data.toString().trim().split(";")[0] ?? "-1", 10)`.
`split` never yields an empty array, so the `?? "-1"` default is dead;
`headD` keeps it for fidelity. -/
def receivedId (data : String) : Option Int :=
  jsParseInt ((jsSplit (jsTrim data)).headD "-1")

/-- Resolution of one executed exchange (the body of the promise built at
lines 86–152), given the identifier it was assigned, the full command
line sent, its timeout, and the first event that fires. -/
def exchangeOutcome (currentCommandId : Nat) (cmdWithId : String) (timeoutMs : Nat) :
    ExchangeEvent → Except DriverError String
  | .reply data =>
    if receivedId data = some (currentCommandId : Int) then
      .ok (jsTrim data)
    else
      .error (.mismatch (mismatchMessage currentCommandId (receivedId data) data))
  | .timeout => .error (.timedOut (timeoutMessage cmdWithId timeoutMs))
  | .transportError m => .error (.transport m)

/-- One exchange handed to `sendCommand`: the command text (without id),
the per-call timeout (default 100, line 83), and the environment's
behaviour towards it. -/
structure Submission where
  command : String
  timeoutMs : Nat := 100
  event : ExchangeEvent
deriving DecidableEq, Repr

/-- The dispatcher's mutable state: the id counter (line 47) and, when a
previous exchange failed, the rejection still propagating down the
un-caught promise chain (line 84). -/
structure DispatcherState where
  commandIdCounter : Nat := 0
  poisoned : Option DriverError := none
deriving DecidableEq, Repr

/-- Runs a queue of submissions against one dispatcher.  Returns the
per-caller results in submission order, the trace of lines written to the
transport (line 143 writes `` `${commandWithId}\n` ``), and the final
state.  A poisoned chain skips the exchange body entirely: nothing is
written, the counter does not move, and the caller receives the old
rejection. -/
def runQueue : DispatcherState → List Submission →
    List (Except DriverError String) × List String × DispatcherState
  | st, [] => ([], [], st)
  | st, sub :: rest =>
    match st.poisoned with
    | some e =>
      let r := runQueue st rest
      (.error e :: r.1, r.2.1, r.2.2)
    | none =>
      let line := commandWithId st.commandIdCounter sub.command
      let outcome := exchangeOutcome st.commandIdCounter line sub.timeoutMs sub.event
      let st₁ : DispatcherState :=
        { commandIdCounter := counterStep st.commandIdCounter,
          poisoned := match outcome with | .ok _ => none | .error e => some e }
      let r := runQueue st₁ rest
      (outcome :: r.1, (line ++ "\n") :: r.2.1, r.2.2)

/-- `true` iff the caller's promise fulfilled. -/
def isOkResult : Except DriverError String → Bool
  | .ok _ => true
  | .error _ => false

/-! ## Buffer reset ordering (`sendCommand` line 88, `resetBuffer` lines 157–176)

Line 88 calls `this.resetBuffer()` **without awaiting it**.  On a real
`SerialPort`, `resetBuffer` initiates `port.flush(cb)`, whose completion
callback runs asynchronously; under JavaScript's run-to-completion rule
that callback cannot fire before the synchronous promise-executor body —
which performs the `port.write` at line 143 — has finished.  The trace
below records the events of one exchange in their earliest possible
order.  On a generic `Duplex` transport `resetBuffer` is a no-op
(lines 174–175): no flush events occur at all. -/

inductive PortEvent where
  | flushStart
  | write (line : String)
  | flushComplete
deriving DecidableEq, Repr

/-- Observable transport events of the synchronous part of one exchange,
with the flush completion placed at its earliest possible position. -/
def exchangeTrace (hasFlush : Bool) (id : Nat) (command : String) : List PortEvent :=
  (if hasFlush then [.flushStart] else [])
    ++ [.write (commandWithId id command ++ "\n")]
    ++ (if hasFlush then [.flushComplete] else [])

/-! ## The enabled-motor set and motor enable commands (lines 46, 214–231, 265–267)

`enabledMotors` is a JavaScript `Set`: insertion-ordered, duplicate-free.
We model it as a `List Nat` with `setAdd`/`setDelete`. -/

/-- `Set.prototype.add`: appends iff not already present. -/
def setAdd (s : List Nat) (x : Nat) : List Nat :=
  if x ∈ s then s else s ++ [x]

/-- `Set.prototype.delete`: removes the element if present. -/
def setDelete (s : List Nat) (x : Nat) : List Nat :=
  s.erase x

/-- `setEnabledMotors(...motors)` (lines 214–217): the command line sent. -/
def setEnabledMotorsCmd (motors : List Nat) : String :=
  "MOTORS_ENABLE;1;" ++ renderInt32 (selector motors)

/-- `enableMotors(...motors)` (lines 219–224): add every index to the set,
then send one command for the entire resulting set.  Returns the new set
and the command line sent. -/
def enableMotors (enabledMotors : List Nat) (motors : List Nat) :
    List Nat × String :=
  let newSet := motors.foldl setAdd enabledMotors
  (newSet, setEnabledMotorsCmd newSet)

/-- `disableMotors(...motors)` (lines 226–231). -/
def disableMotors (enabledMotors : List Nat) (motors : List Nat) :
    List Nat × String :=
  let newSet := motors.foldl setDelete enabledMotors
  (newSet, setEnabledMotorsCmd newSet)

/-- `disableAllMotors()` (lines 265–267): sends a zero bitmask directly and
does not touch `enabledMotors`. -/
def disableAllMotors (enabledMotors : List Nat) : List Nat × String :=
  (enabledMotors, "MOTORS_ENABLE;1;0")

/-! ## Domain operations: encoding (lines 193–302) -/

/-- `MotorMoveParameters` (models/clearcore.ts); numeric parameters are
modelled as integers. -/
structure MotorMoveParameters where
  id : Nat
  steps : Int
  velocity : Int
  acceleration : Int
deriving DecidableEq, Repr

/-- `MotorVelocityParameters`. -/
structure MotorVelocityParameters where
  id : Nat
  velocity : Int
  acceleration : Int
deriving DecidableEq, Repr

/-- `DigitalPinWriteParameters`. -/
structure DigitalPinWriteParameters where
  id : Nat
  value : Bool
deriving DecidableEq, Repr

/-- `readMotors` request (line 197): `` `MOTORS_STATE;1;${selector}` ``. -/
def readMotorsCmd (motors : List Nat) : String :=
  "MOTORS_STATE;1;" ++ renderInt32 (selector motors)

/-- `moveMotors` (lines 233–241):
`` `MOTORS_MOVE;${1 + motors.length * 3};${selector};${args}` `` where
`args` joins `` `${m.steps};${m.velocity};${m.acceleration}` `` with `;`. -/
def moveMotorsCmd (motors : List MotorMoveParameters) : String :=
  "MOTORS_MOVE;" ++ toString (1 + motors.length * 3) ++ ";"
    ++ renderInt32 (selector (motors.map (fun m => m.id))) ++ ";"
    ++ joinSemi (motors.map (fun m =>
        toString m.steps ++ ";" ++ toString m.velocity ++ ";" ++ toString m.acceleration))

/-- `setMotorsVelocity` (lines 248–254):
`` `MOTORS_SET_VELOCITY;${1 + motors.length * 2};${selector};${args}` ``. -/
def setMotorsVelocityCmd (motors : List MotorVelocityParameters) : String :=
  "MOTORS_SET_VELOCITY;" ++ toString (1 + motors.length * 2) ++ ";"
    ++ renderInt32 (selector (motors.map (fun m => m.id))) ++ ";"
    ++ joinSemi (motors.map (fun m =>
        toString m.velocity ++ ";" ++ toString m.acceleration))

/-- `setPinsMode` (lines 269–272): `` `PINS_MODE_SET;2;${selector};${mode}` ``;
the `PinMode` enum value is a number. -/
def setPinsModeCmd (mode : Nat) (pins : List Nat) : String :=
  "PINS_MODE_SET;2;" ++ renderInt32 (selector pins) ++ ";" ++ toString mode

/-- `writeDigitalPins` (lines 296–302):
`` `DPINS_SET;${1 + pins.length};${selector};${values}` `` where `values`
joins `` `${p.value ? 1 : 0}` `` with `;`. -/
def writeDigitalPinsCmd (pins : List DigitalPinWriteParameters) : String :=
  "DPINS_SET;" ++ toString (1 + pins.length) ++ ";"
    ++ renderInt32 (selector (pins.map (fun p => p.id))) ++ ";"
    ++ joinSemi (pins.map (fun p => if p.value then "1" else "0"))

/-- `readDigitalSensors` request (line 278). -/
def readDigitalSensorsCmd (sensors : List Nat) : String :=
  "DSENSORS_STATE;1;" ++ renderInt32 (selector sensors)

/-- `readAnalogSensors` request (line 289). -/
def readAnalogSensorsCmd (sensors : List Nat) : String :=
  "ASENSORS_STATE;1;" ++ renderInt32 (selector sensors)

/-! ## Domain operations: reply decoding (lines 193–212, 274–294) -/

/-- `MotorState` (models/clearcore.ts); the three numeric fields keep the
`parseInt` result, `none` modelling `NaN`. -/
structure MotorState where
  isWritable : Bool
  enabled : Bool
  stepsComplete : Bool
  isInHardwareFault : Bool
  hlfbState : Option Int
  hlfbMode : Option Int
  position : Option Int
deriving DecidableEq, Repr

/-- One 7-field group of a `MOTORS_STATE` reply (lines 201–209); an absent
field (JS `undefined`) compares unequal to `"1"` and the `?? "0"` default
feeds `parseInt`. -/
def motorStateOfGroup (g : List String) : MotorState :=
  { isWritable := g.getD 0 "" == "1"
    enabled := g.getD 1 "" == "1"
    stepsComplete := g.getD 2 "" == "1"
    isInHardwareFault := g.getD 3 "" == "1"
    hlfbState := jsParseInt (g.getD 4 "0")
    hlfbMode := jsParseInt (g.getD 5 "0")
    position := jsParseInt (g.getD 6 "0") }

/-- The `for (let i = 0; i < parts.length; i += 7)` loop of lines 200–210:
seven fields are consumed per iteration; a shorter final group still
yields one record, its missing fields defaulted exactly as
`parts[i + j] ?? …` does in `motorStateOfGroup`. -/
def parseMotorGroups : List String → List MotorState
  | [] => []
  | f0 :: f1 :: f2 :: f3 :: f4 :: f5 :: f6 :: rest =>
    motorStateOfGroup [f0, f1, f2, f3, f4, f5, f6] :: parseMotorGroups rest
  | leftover => [motorStateOfGroup leftover]

/-- `readMotors` reply decoding (lines 198–210):
`response.split(";").slice(2, -1)`, then 7-field groups. -/
def parseMotorsResponse (response : String) : List MotorState :=
  parseMotorGroups (jsSlice2Neg1 (jsSplit response))

/-- `readDigitalSensors` reply decoding (lines 279–282):
`response.split(";").slice(2, -1).map(s => s === "1")`. -/
def parseDigitalSensorsResponse (response : String) : List Bool :=
  (jsSlice2Neg1 (jsSplit response)).map (fun s => s == "1")

/-- `readAnalogSensors` reply decoding (lines 290–293):
`response.split(";").slice(2, -1).map(s => parseInt(s, 10))`. -/
def parseAnalogSensorsResponse (response : String) : List (Option Int) :=
  (jsSlice2Neg1 (jsSplit response)).map jsParseInt

/-- The payload decoding every read-style caller performs on a reply line:
split on `;`, slice away the echoed identifier (field 0) and the status
field (field 1), and the final field (`slice(2, -1)`). -/
def decodePayload (line : String) : List String :=
  jsSlice2Neg1 (jsSplit line)

/-! ## Controller reply model

Modelled from the spec: the controller board itself is not part of this
repository.  Spec section 6 fixes the reply shape
`<commandId>;<status>[;<payloadField>...]\n` with a trailing `;`, and for
`MOTORS_STATE` "groups of 7 fields per requested motor"; the request
carries only a bitmask, so the groups can only be ordered by bit index —
ascending, as the repository's own quickstart test exhibits for motors
`(0,2)`. -/

/-- The indices whose bit is set, in ascending order. -/
def setBits (sel : Nat) : List Nat :=
  (List.range 32).filter (fun i => sel.testBit i)

/-- Modelled from the spec: `MOTORS_STATE` reply line for per-motor field
groups `fields`, echoing identifier `id`, selected motors in ascending
bit order, with the protocol's trailing `;`. -/
def motorsStateReplyLine (id : Nat) (fields : Nat → List String) (sel : Nat) : String :=
  toString id ++ ";0;" ++ joinSemi (((setBits sel).map fields).flatten) ++ ";"

/-- Modelled from the spec: `DSENSORS_STATE` reply line, one field per
selected sensor in ascending bit order. -/
def dsensorsReplyLine (id : Nat) (fields : Nat → String) (sel : Nat) : String :=
  toString id ++ ";0;" ++ joinSemi ((setBits sel).map fields) ++ ";"

/-- Modelled from the spec: `ASENSORS_STATE` reply line. -/
def asensorsReplyLine (id : Nat) (fields : Nat → String) (sel : Nat) : String :=
  toString id ++ ";0;" ++ joinSemi ((setBits sel).map fields) ++ ";"

/-- A string that contains no field delimiter. -/
def semiFree (s : String) : Prop := ';' ∉ s.data

instance (s : String) : Decidable (semiFree s) := by
  unfold semiFree; infer_instance

/-- `s` contains `t` as a contiguous substring. -/
def containsSub (s t : String) : Prop := ∃ a b, s = a ++ t ++ b

/-- Per-motor reply field groups used in the request-order scenarios: the
motor-0 and motor-2 groups of the repository's quickstart test reply. -/
def sampleMotorFields : Nat → List String := fun i =>
  if i = 0 then ["1", "1", "1", "0", "1", "0", "100"]
  else if i = 2 then ["1", "0", "1", "0", "1", "0", "200"]
  else ["0", "0", "0", "0", "0", "0", "0"]

/-! ## Lemmas: split and join -/

theorem splitSemiChars_ne_nil (cs : List Char) : splitSemiChars cs ≠ [] := by
  induction cs with
  | nil => simp [splitSemiChars]
  | cons c cs ih =>
    by_cases hc : c = ';'
    · simp [splitSemiChars, hc]
    · simp only [splitSemiChars, if_neg hc]
      cases h : splitSemiChars cs with
      | nil => simp
      | cons f rest => simp

theorem splitSemiChars_of_semiFree (a : List Char) (h : ';' ∉ a) :
    splitSemiChars a = [a] := by
  induction a with
  | nil => rfl
  | cons c a ih =>
    have hc : c ≠ ';' := fun hc => h (hc ▸ List.mem_cons_self c a)
    have ha : ';' ∉ a := fun hm => h (List.mem_cons_of_mem c hm)
    simp only [splitSemiChars, if_neg hc, ih ha]

theorem splitSemiChars_append (a b : List Char) (h : ';' ∉ a) :
    splitSemiChars (a ++ ';' :: b) = a :: splitSemiChars b := by
  induction a with
  | nil => simp [splitSemiChars]
  | cons c a ih =>
    have hc : c ≠ ';' := fun hc => h (hc ▸ List.mem_cons_self c a)
    have ha : ';' ∉ a := fun hm => h (List.mem_cons_of_mem c hm)
    simp only [List.cons_append, splitSemiChars, if_neg hc, List.append_eq]
    rw [ih ha]

theorem asString_data (s : String) : List.asString s.data = s := by
  cases s; rfl

theorem data_asString (cs : List Char) : (List.asString cs).data = cs := rfl

theorem joinSemi_singleton (f : String) : joinSemi [f] = f := rfl

theorem joinSemi_cons_cons (f g : String) (rest : List String) :
    joinSemi (f :: g :: rest) = f ++ ";" ++ joinSemi (g :: rest) := rfl

theorem data_joinSemi_cons_cons (f g : String) (rest : List String) :
    (joinSemi (f :: g :: rest)).data = f.data ++ ';' :: (joinSemi (g :: rest)).data := by
  rw [joinSemi_cons_cons, String.data_append, String.data_append]
  simp

/-- Splitting a `;`-join recovers the fields, provided no field contains
the delimiter.  This is the inverse law relating the codec's two sides. -/
theorem jsSplit_joinSemi (fs : List String) (hne : fs ≠ [])
    (hf : ∀ f ∈ fs, semiFree f) : jsSplit (joinSemi fs) = fs := by
  induction fs with
  | nil => exact absurd rfl hne
  | cons f rest ih =>
    cases rest with
    | nil =>
      have h1 : semiFree f := hf f (List.mem_cons_self f [])
      simp only [jsSplit, joinSemi, splitSemiChars_of_semiFree f.data h1,
        List.map_cons, List.map_nil, asString_data]
    | cons g rest' =>
      have h1 : semiFree f := hf f (List.mem_cons_self f _)
      have h2 : ∀ x ∈ g :: rest', semiFree x :=
        fun x hx => hf x (List.mem_cons_of_mem f hx)
      have ihr := ih (by simp) h2
      simp only [jsSplit, data_joinSemi_cons_cons,
        splitSemiChars_append f.data _ h1, List.map_cons, asString_data]
      simp only [jsSplit] at ihr
      rw [ihr]

theorem joinSemi_append_empty (fs : List String) (hne : fs ≠ []) :
    joinSemi fs ++ ";" = joinSemi (fs ++ [""]) := by
  induction fs with
  | nil => exact absurd rfl hne
  | cons f rest ih =>
    cases rest with
    | nil =>
      show f ++ ";" = f ++ ";" ++ ""
      rw [String.append_empty]
    | cons g rest' =>
      have h := ih (by simp)
      rw [List.cons_append] at h
      simp only [List.cons_append]
      rw [joinSemi_cons_cons, joinSemi_cons_cons, ← h, String.append_assoc]

/-- Splitting a `;`-join that carries the protocol's trailing delimiter
yields the fields plus one trailing empty field. -/
theorem jsSplit_joinSemi_trailing (fs : List String) (hne : fs ≠ [])
    (hf : ∀ f ∈ fs, semiFree f) :
    jsSplit (joinSemi fs ++ ";") = fs ++ [""] := by
  rw [joinSemi_append_empty fs hne]
  apply jsSplit_joinSemi
  · simp
  · intro f hfm
    rcases List.mem_append.1 hfm with h | h
    · exact hf f h
    · simp only [List.mem_singleton] at h
      subst h
      simp [semiFree]

theorem jsSlice2Neg1_concat (a b x : α) (l : List α) :
    jsSlice2Neg1 (a :: b :: (l ++ [x])) = l := by
  simp [jsSlice2Neg1, List.dropLast_concat]

/-! ## Lemmas: decimal renderings contain no delimiter -/

theorem semiFree_toDigitsCore (f n : Nat) (l : List Char) (h : ';' ∉ l) :
    ';' ∉ Nat.toDigitsCore 10 f n l := by
  induction f generalizing n l with
  | zero => simpa [Nat.toDigitsCore] using h
  | succ f ih =>
    have hd : ';' ≠ Nat.digitChar (n % 10) := by
      have h10 : ∀ m, m < 10 → ';' ≠ Nat.digitChar m := by decide
      exact h10 (n % 10) (Nat.mod_lt n (by omega))
    simp only [Nat.toDigitsCore]
    by_cases hq : n / 10 = 0
    · simp only [hq, if_pos rfl]
      intro hmem
      rcases List.mem_cons.1 hmem with h1 | h1
      · exact hd h1
      · exact h h1
    · simp only [if_neg hq]
      apply ih
      intro hmem
      rcases List.mem_cons.1 hmem with h1 | h1
      · exact hd h1
      · exact h h1

theorem semiFree_natToString (n : Nat) : semiFree (toString n) := by
  show ';' ∉ (Nat.repr n).data
  unfold Nat.repr Nat.toDigits
  rw [data_asString]
  exact semiFree_toDigitsCore (n + 1) n [] (by simp)

theorem semiFree_intToString (i : Int) : semiFree (toString i) := by
  show ';' ∉ (Int.repr i).data
  cases i with
  | ofNat n => exact semiFree_natToString n
  | negSucc n =>
    show ';' ∉ ("-" ++ Nat.repr (n + 1)).data
    rw [String.data_append]
    intro hmem
    rcases List.mem_append.1 hmem with h | h
    · exact absurd h (by decide)
    · exact semiFree_natToString (n + 1) h

theorem semiFree_renderInt32 (bits : Nat) : semiFree (renderInt32 bits) := by
  unfold renderInt32
  by_cases h : bits < 2 ^ 31
  · simp only [if_pos h]; exact semiFree_natToString bits
  · simp only [if_neg h]; exact semiFree_intToString _

/-! ## Lemmas: the dispatcher queue -/

/-- Once the promise chain is rejected, every later submission's callback
is skipped: every later caller receives the same old error and nothing
more is ever written. -/
theorem runQueue_poisoned (c : Nat) (e : DriverError) (subs : List Submission) :
    runQueue ⟨c, some e⟩ subs =
      (subs.map (fun _ => .error e), [], ⟨c, some e⟩) := by
  induction subs with
  | nil => rfl
  | cons sub rest ih => simp [runQueue, ih]

/-- Structural invariants of a run that starts unpoisoned: one result per
submission; at most one write per submission; the k-th write is the k-th
submission's command line, tagged with the k-th counter value; and when
every caller's promise fulfilled, every submission was written. -/
theorem runQueue_spec (subs : List Submission) : ∀ (c : Nat),
    (runQueue ⟨c, none⟩ subs).1.length = subs.length
    ∧ (runQueue ⟨c, none⟩ subs).2.1.length ≤ subs.length
    ∧ (∀ k, k < (runQueue ⟨c, none⟩ subs).2.1.length →
        (runQueue ⟨c, none⟩ subs).2.1[k]? =
          (subs[k]?).map (fun sub => commandWithId (counterStep^[k] c) sub.command ++ "\n"))
    ∧ ((∀ r ∈ (runQueue ⟨c, none⟩ subs).1, isOkResult r = true) →
        (runQueue ⟨c, none⟩ subs).2.1.length = subs.length) := by
  induction subs with
  | nil =>
    intro c
    refine ⟨rfl, by simp [runQueue], ?_, fun _ => rfl⟩
    intro k hk
    simp [runQueue] at hk
  | cons sub rest ih =>
    intro c
    cases houtcome : exchangeOutcome c (commandWithId c sub.command) sub.timeoutMs sub.event with
    | ok s =>
      have h1 := ih (counterStep c)
      simp only [runQueue, houtcome] at *
      refine ⟨by simp [h1.1], by simpa using Nat.succ_le_succ h1.2.1, ?_, ?_⟩
      · intro k hk
        cases k with
        | zero => simp
        | succ k =>
          simp only [List.getElem?_cons_succ]
          have hk' : k < (runQueue ⟨counterStep c, none⟩ rest).2.1.length := by
            simpa using hk
          rw [h1.2.2.1 k hk', Function.iterate_succ_apply]
      · intro hall
        have : (runQueue ⟨counterStep c, none⟩ rest).2.1.length = rest.length := by
          apply h1.2.2.2
          intro r hr
          exact hall r (List.mem_cons_of_mem _ hr)
        simp [this]
    | error e =>
      simp only [runQueue, houtcome, runQueue_poisoned] at *
      refine ⟨by simp, by simp, ?_, ?_⟩
      · intro k hk
        cases k with
        | zero => simp
        | succ k => simp at hk
      · intro hall
        have := hall (.error e) (List.mem_cons_self _ _)
        simp [isOkResult] at this

/-- The identifier counter starting from 0 takes the value `k % 1000000`
before the k-th increment. -/
theorem assignedId_eq_mod (k : Nat) : assignedId k = k % MAX_COMMAND_ID := by
  induction k with
  | zero => rfl
  | succ k ih =>
    show counterStep^[k + 1] 0 = (k + 1) % MAX_COMMAND_ID
    rw [Function.iterate_succ_apply']
    show counterStep (assignedId k) = (k + 1) % MAX_COMMAND_ID
    rw [ih]
    unfold counterStep MAX_COMMAND_ID
    omega

/-! ## Lemmas: bitmask selectors -/

theorem testBit_selector_foldl (ms : List Nat) (acc i : Nat) :
    (ms.foldl (fun a m => a ||| jsShl1 m) acc).testBit i
      = (acc.testBit i || ms.any (fun m => decide (m % 32 = i))) := by
  induction ms generalizing acc with
  | nil => simp
  | cons m rest ih =>
    simp only [List.foldl_cons, List.any_cons]
    rw [ih]
    simp only [jsShl1, Nat.testBit_lor, Nat.testBit_two_pow]
    rw [Bool.or_assoc]

/-- A selector built from indices below 32 has exactly their bits set. -/
theorem testBit_selector (ms : List Nat) (hm : ∀ m ∈ ms, m < 32) (i : Nat) :
    (selector ms).testBit i = decide (i ∈ ms) := by
  unfold selector
  rw [testBit_selector_foldl]
  simp only [Nat.zero_testBit, Bool.false_or]
  rw [Bool.eq_iff_iff]
  simp only [List.any_eq_true, decide_eq_true_eq]
  constructor
  · rintro ⟨m, hmem, hmi⟩
    rw [Nat.mod_eq_of_lt (hm m hmem)] at hmi
    subst hmi
    exact hmem
  · intro hmem
    exact ⟨i, hmem, by rw [Nat.mod_eq_of_lt (hm i hmem)]⟩

theorem filter_lt_succ_of_sorted (ms : List Nat)
    (hs : List.Pairwise (· < ·) ms) (n : Nat) :
    ms.filter (fun m => decide (m < n + 1))
      = ms.filter (fun m => decide (m < n)) ++ (if n ∈ ms then [n] else []) := by
  induction ms with
  | nil => simp
  | cons m rest ih =>
    rw [List.pairwise_cons] at hs
    obtain ⟨hp, hrest⟩ := hs
    have ihr := ih hrest
    rcases Nat.lt_trichotomy m n with h1 | h1 | h1
    · have e1 : (n ∈ m :: rest) = (n ∈ rest) := by
        simp only [List.mem_cons, eq_iff_iff]
        constructor
        · rintro (h | h)
          · omega
          · exact h
        · exact Or.inr
      rw [List.filter_cons, List.filter_cons]
      simp only [decide_eq_true_eq, if_pos (by omega : m < n + 1), if_pos h1, e1]
      rw [ihr, List.cons_append]
    · subst h1
      have hgt : ∀ x ∈ rest, ¬ (x < m + 1) := fun x hx => by
        have := hp x hx; omega
      have e1 : rest.filter (fun x => decide (x < m + 1)) = [] :=
        List.filter_eq_nil_iff.2 (by simpa using hgt)
      have e2 : rest.filter (fun x => decide (x < m)) = [] :=
        List.filter_eq_nil_iff.2 (by
          intro x hx
          have := hp x hx
          simp only [decide_eq_true_eq]
          omega)
      rw [List.filter_cons, List.filter_cons]
      simp only [decide_eq_true_eq, if_pos (by omega : m < m + 1),
        if_neg (by omega : ¬ m < m), e1, e2, if_pos (List.mem_cons_self m rest)]
      simp
    · have hnm : n ∉ m :: rest := by
        simp only [List.mem_cons, not_or]
        refine ⟨by omega, fun hmem => ?_⟩
        have := hp n hmem; omega
      have hnr : n ∉ rest := fun hmem => hnm (List.mem_cons_of_mem m hmem)
      rw [List.filter_cons, List.filter_cons]
      simp only [decide_eq_true_eq, if_neg (by omega : ¬ m < n + 1),
        if_neg (by omega : ¬ m < n), if_neg hnm]
      rw [ihr, if_neg hnr]

theorem range_filter_mem (ms : List Nat) (hs : List.Pairwise (· < ·) ms) (n : Nat) :
    (List.range n).filter (fun i => decide (i ∈ ms))
      = ms.filter (fun m => decide (m < n)) := by
  induction n with
  | zero => simp
  | succ n ih =>
    rw [List.range_succ, List.filter_append, ih, filter_lt_succ_of_sorted ms hs n]
    congr 1
    rw [List.filter_cons]
    by_cases h : n ∈ ms
    · simp [h]
    · simp [h]

/-- Round trip: the ascending set bits of a selector built from a strictly
increasing list of indices below 32 recover exactly that list. -/
theorem setBits_selector (ms : List Nat) (hs : List.Pairwise (· < ·) ms)
    (hm : ∀ m ∈ ms, m < 32) : setBits (selector ms) = ms := by
  unfold setBits
  rw [List.filter_congr (fun i (_ : i ∈ List.range 32) => testBit_selector ms hm i)]
  rw [range_filter_mem ms hs 32]
  exact List.filter_eq_self.2 (fun a ha => by simpa using hm a ha)

/-! ## Lemmas: 7-field group parsing -/

theorem exists_seven (g : List String) (hg : g.length = 7) :
    ∃ a b c d e f h, g = [a, b, c, d, e, f, h] := by
  cases g with
  | nil => simp at hg
  | cons a g =>
  cases g with
  | nil => simp at hg
  | cons b g =>
  cases g with
  | nil => simp at hg
  | cons c g =>
  cases g with
  | nil => simp at hg
  | cons d g =>
  cases g with
  | nil => simp at hg
  | cons e g =>
  cases g with
  | nil => simp at hg
  | cons f g =>
  cases g with
  | nil => simp at hg
  | cons h g =>
  cases g with
  | nil => exact ⟨a, b, c, d, e, f, h, rfl⟩
  | cons i g => simp at hg

theorem parseMotorGroups_flatten (gs : List (List String))
    (h7 : ∀ g ∈ gs, g.length = 7) :
    parseMotorGroups gs.flatten = gs.map motorStateOfGroup := by
  induction gs with
  | nil => simp [parseMotorGroups]
  | cons g rest ih =>
    have hg : g.length = 7 := h7 g (List.mem_cons_self g rest)
    have hrest : ∀ x ∈ rest, x.length = 7 :=
      fun x hx => h7 x (List.mem_cons_of_mem g hx)
    rw [List.flatten_cons]
    obtain ⟨a, b, c, d, e, f, h, rfl⟩ := exists_seven g hg
    simp only [List.cons_append, List.nil_append]
    rw [show parseMotorGroups (a :: b :: c :: d :: e :: f :: h :: rest.flatten)
          = motorStateOfGroup [a, b, c, d, e, f, h] :: parseMotorGroups rest.flatten
        from rfl]
    rw [ih hrest, List.map_cons]

/-! ## Claim theorems -/

/-- C1: claimed — a failure of one exchange aborts only that exchange and
is surfaced only to that exchange's caller, and the next queued exchange
still executes normally.  The code contradicts this: `sendCommand` chains
with `.then` and no rejection handler, so after the first exchange times
out the second exchange's body never runs, its command line is never
written (only one write occurs), and its caller receives the *first*
exchange's timeout error. -/
theorem clearcore_c1_queue_poisoning :
    runQueue ⟨0, none⟩
        [⟨"GET_VERSION;0", 100, .timeout⟩,
         ⟨"EXPANSION_BOARDS_STATE;0", 100, .reply "1;0;2;16;"⟩]
      = ([.error (.timedOut "Command \"0;GET_VERSION;0\" timed out after 100ms"),
          .error (.timedOut "Command \"0;GET_VERSION;0\" timed out after 100ms")],
         ["0;GET_VERSION;0\n"],
         ⟨1, some (.timedOut "Command \"0;GET_VERSION;0\" timed out after 100ms")⟩) := by
  rfl

/-- C2 (amended): in a run in which every exchange resolves successfully,
exactly N command lines are written for N submissions, in FIFO submission
order, the k-th line carrying the k-th assigned identifier; serialization
(at most one exchange outstanding, each starting only after the previous
resolved) is structural in the queue model.  The unamended "exactly N
writes for every set of N operations" fails when an exchange fails: see
the counterexample. -/
theorem clearcore_c2_fifo_writes (subs : List Submission)
    (hall : ∀ r ∈ (runQueue ⟨0, none⟩ subs).1, isOkResult r = true) :
    (runQueue ⟨0, none⟩ subs).2.1.length = subs.length
    ∧ ∀ k, (runQueue ⟨0, none⟩ subs).2.1[k]?
        = (subs[k]?).map (fun sub => commandWithId (assignedId k) sub.command ++ "\n") := by
  have h := runQueue_spec subs 0
  have hlen := h.2.2.2 hall
  refine ⟨hlen, fun k => ?_⟩
  by_cases hk : k < (runQueue ⟨0, none⟩ subs).2.1.length
  · exact h.2.2.1 k hk
  · have hk1 : (runQueue ⟨0, none⟩ subs).2.1.length ≤ k := by omega
    have hk2 : subs.length ≤ k := by omega
    rw [List.getElem?_eq_none hk1, List.getElem?_eq_none hk2]
    rfl

/-- C2 witness: two successful exchanges produce exactly two writes, and
the second write is the second submission's line with identifier 1. -/
theorem clearcore_c2_fifo_writes_witness :
    (runQueue ⟨0, none⟩
        [⟨"GET_VERSION;0", 100, .reply "0;0;1;"⟩,
         ⟨"EXPANSION_BOARDS_STATE;0", 100, .reply "1;0;2;16;"⟩]).2.1.length = 2
    ∧ (runQueue ⟨0, none⟩
        [⟨"GET_VERSION;0", 100, .reply "0;0;1;"⟩,
         ⟨"EXPANSION_BOARDS_STATE;0", 100, .reply "1;0;2;16;"⟩]).2.1[1]?
        = some "1;EXPANSION_BOARDS_STATE;0\n" := by
  have h := clearcore_c2_fifo_writes
    [⟨"GET_VERSION;0", 100, .reply "0;0;1;"⟩,
     ⟨"EXPANSION_BOARDS_STATE;0", 100, .reply "1;0;2;16;"⟩] (by decide)
  exact ⟨h.1, (h.2 1).trans rfl⟩

/-- C2 counterexample: three concurrently submitted operations with a
timeout in the middle produce only two writes, not three — the claimed
"exactly N command lines are written" is false as stated. -/
theorem clearcore_c2_counterexample :
    (runQueue ⟨0, none⟩
        [⟨"MOTORS_HOME;1;5", 100, .reply "0;0;"⟩,
         ⟨"MOTORS_STATE;1;5", 100, .timeout⟩,
         ⟨"DSENSORS_STATE;1;5", 100, .reply "2;0;1;0;"⟩]).2.1.length = 2
    ∧ (2 : Nat) ≠ 3 := by
  exact ⟨rfl, by decide⟩

/-- Any fulfilled call got its value from its own exchange's reply line:
a reply delivered during exchange j never resolves a call other than j. -/
theorem runQueue_ok_from_reply (subs : List Submission) :
    ∀ (st : DispatcherState) (j : Nat) (s : String),
      (runQueue st subs).1[j]? = some (.ok s) →
      ∃ sub, subs[j]? = some sub ∧ ∃ d, sub.event = .reply d ∧ s = jsTrim d := by
  induction subs with
  | nil =>
    intro st j s h
    simp [runQueue] at h
  | cons sub rest ih =>
    intro st j s h
    obtain ⟨c, p⟩ := st
    cases p with
    | some e =>
      rw [runQueue_poisoned] at h
      rw [List.getElem?_map] at h
      cases hj : (sub :: rest)[j]? with
      | none => rw [hj] at h; simp at h
      | some x => rw [hj] at h; simp at h
    | none =>
      simp only [runQueue] at h
      cases j with
      | zero =>
        simp only [List.getElem?_cons_zero, Option.some_inj] at h
        cases hev : sub.event with
        | reply d =>
          rw [hev] at h
          simp only [exchangeOutcome] at h
          by_cases hid : receivedId d = some ((c : Nat) : Int)
          · rw [if_pos hid] at h
            refine ⟨sub, List.getElem?_cons_zero, d, hev, ?_⟩
            injection h with h2
            exact h2.symm
          · rw [if_neg hid] at h
            exact absurd h (by simp)
        | timeout =>
          rw [hev] at h
          simp [exchangeOutcome] at h
        | transportError m =>
          rw [hev] at h
          simp [exchangeOutcome] at h
      | succ j =>
        simp only [List.getElem?_cons_succ] at h ⊢
        exact ih _ j s h

/-- C3: a reply line whose leading `;`-field does not parse to the sent
identifier fails that exchange with a mismatch error whose message
contains the sent identifier, the received identifier, and the raw line;
a matching line resolves the exchange with the full trimmed line; and a
line delivered during one exchange never fulfils any other queued call. -/
theorem clearcore_c3_identifier_mismatch :
    (∀ (c : Nat) (cl : String) (t : Nat) (d : String),
      receivedId d ≠ some (c : Int) →
        exchangeOutcome c cl t (.reply d)
          = .error (.mismatch (mismatchMessage c (receivedId d) d))
        ∧ containsSub (mismatchMessage c (receivedId d) d) (toString c)
        ∧ containsSub (mismatchMessage c (receivedId d) d) (renderParsed (receivedId d))
        ∧ containsSub (mismatchMessage c (receivedId d) d) d)
    ∧ (∀ (c : Nat) (cl : String) (t : Nat) (d : String),
      receivedId d = some (c : Int) →
        exchangeOutcome c cl t (.reply d) = .ok (jsTrim d))
    ∧ (∀ (subs : List Submission) (st : DispatcherState) (j : Nat) (s : String),
      (runQueue st subs).1[j]? = some (.ok s) →
      ∃ sub, subs[j]? = some sub ∧ ∃ d, sub.event = .reply d ∧ s = jsTrim d) := by
  refine ⟨?_, ?_, fun subs => runQueue_ok_from_reply subs⟩
  · intro c cl t d hne
    refine ⟨by simp [exchangeOutcome, if_neg hne], ?_, ?_, ?_⟩
    · exact ⟨"Command ID mismatch. Sent: ",
        ", Received: " ++ renderParsed (receivedId d) ++ ". Response: \"" ++ d ++ "\"",
        by simp [mismatchMessage, String.append_assoc]⟩
    · exact ⟨"Command ID mismatch. Sent: " ++ toString c ++ ", Received: ",
        ". Response: \"" ++ d ++ "\"",
        by simp [mismatchMessage, String.append_assoc]⟩
    · exact ⟨"Command ID mismatch. Sent: " ++ toString c ++ ", Received: "
          ++ renderParsed (receivedId d) ++ ". Response: \"",
        "\"",
        by simp [mismatchMessage, String.append_assoc]⟩
  · intro c cl t d heq
    simp [exchangeOutcome, heq]

/-- C3 witness: with sent identifier 0, the reply line `5;0;` is rejected
with the exact mismatch message, and the matching reply `0;0;` resolves
with the trimmed line. -/
theorem clearcore_c3_identifier_mismatch_witness :
    exchangeOutcome 0 "0;GET_VERSION;0" 100 (.reply "5;0;")
      = .error (.mismatch "Command ID mismatch. Sent: 0, Received: 5. Response: \"5;0;\"")
    ∧ exchangeOutcome 0 "0;GET_VERSION;0" 100 (.reply "0;0;1;") = .ok "0;0;1;" := by
  constructor
  · exact ((clearcore_c3_identifier_mismatch.1 0 "0;GET_VERSION;0" 100 "5;0;"
      (by decide)).1).trans (by rfl)
  · exact (clearcore_c3_identifier_mismatch.2.1 0 "0;GET_VERSION;0" 100 "0;0;1;"
      (by decide)).trans (by rfl)

/-- C4: on a fresh dispatcher the k-th command line written carries
identifier `k % 1000000` (so the first N exchanges get 0, 1, …, N-1);
every assigned identifier is below 1,000,000; and after 1,000,000
exchanges the counter wraps back to 0. -/
theorem clearcore_c4_identifier_sequence (subs : List Submission) (k : Nat)
    (hk : k < (runQueue ⟨0, none⟩ subs).2.1.length) :
    (runQueue ⟨0, none⟩ subs).2.1[k]?
        = (subs[k]?).map (fun sub => commandWithId (k % MAX_COMMAND_ID) sub.command ++ "\n")
    ∧ k % MAX_COMMAND_ID < MAX_COMMAND_ID
    ∧ assignedId MAX_COMMAND_ID = 0 := by
  refine ⟨?_, by unfold MAX_COMMAND_ID; omega, by rw [assignedId_eq_mod]; simp⟩
  have h := (runQueue_spec subs 0).2.2.1 k hk
  rw [h, ← assignedId_eq_mod]
  rfl

/-- C4 witness: in a two-exchange run the second write is tagged with
identifier 1 (= 1 % 1000000). -/
theorem clearcore_c4_identifier_sequence_witness :
    (runQueue ⟨0, none⟩
        [⟨"MOTORS_ENABLE;1;5", 100, .reply "0;0;"⟩,
         ⟨"MOTORS_MOVE;4;1;100;1000;10000", 100, .reply "1;0;"⟩]).2.1[1]?
        = ([⟨"MOTORS_ENABLE;1;5", 100, .reply "0;0;"⟩,
            ⟨"MOTORS_MOVE;4;1;100;1000;10000", 100, .reply "1;0;"⟩] :
              List Submission)[1]?.map
            (fun sub => commandWithId (1 % MAX_COMMAND_ID) sub.command ++ "\n")
    ∧ 1 % MAX_COMMAND_ID < MAX_COMMAND_ID
    ∧ assignedId MAX_COMMAND_ID = 0 :=
  clearcore_c4_identifier_sequence
    [⟨"MOTORS_ENABLE;1;5", 100, .reply "0;0;"⟩,
     ⟨"MOTORS_MOVE;4;1;100;1000;10000", 100, .reply "1;0;"⟩] 1 (by decide)

/-- C5: claimed — the flush completes before the command line is written.
The code contradicts this on a flush-supporting transport: `resetBuffer()`
is invoked without awaiting it, so under run-to-completion the flush
completion can only occur *after* the synchronous write; the earliest
possible trace places `flushComplete` strictly after the write.  On a
transport without flush support the buffer reset is a no-op (second
conjunct), as claimed. -/
theorem clearcore_c5_flush_not_awaited (id : Nat) (command : String) :
    exchangeTrace true id command
      = [.flushStart, .write (commandWithId id command ++ "\n"), .flushComplete]
    ∧ exchangeTrace false id command
      = [.write (commandWithId id command ++ "\n")] :=
  ⟨rfl, rfl⟩

/-- C5 witness: the trace of the `GET_VERSION` exchange on a
flush-supporting transport — the write precedes the flush completion. -/
theorem clearcore_c5_flush_not_awaited_witness :
    exchangeTrace true 0 "GET_VERSION;0"
      = [.flushStart, .write (commandWithId 0 "GET_VERSION;0" ++ "\n"), .flushComplete]
    ∧ exchangeTrace false 0 "GET_VERSION;0"
      = [.write (commandWithId 0 "GET_VERSION;0" ++ "\n")] :=
  clearcore_c5_flush_not_awaited 0 "GET_VERSION;0"

/-- A reply line assembled by the controller model is a `;`-join of the
echoed identifier, the status field `0`, and the payload fields. -/
theorem replyLine_eq_joinSemi (tid : String) (payload : List String) (hp : payload ≠ []) :
    tid ++ ";0;" ++ joinSemi payload ++ ";" = joinSemi (tid :: "0" :: payload) ++ ";" := by
  cases payload with
  | nil => exact absurd rfl hp
  | cons p ps =>
    rw [joinSemi_cons_cons, joinSemi_cons_cons]
    simp only [String.append_assoc]
    rfl

/-- C6 counterexample: the driver sends the identical command line for
`readMotors(2,0)` and `readMotors(0,2)` (the bitmask has no order), and
decodes the reply positionally, so for caller order `(2,0)` the result is
still `[motor-0 state, motor-2 state]` — it does not align with the
caller's non-ascending index order. -/
theorem clearcore_c6_counterexample :
    readMotorsCmd [2, 0] = readMotorsCmd [0, 2]
    ∧ parseMotorsResponse (motorsStateReplyLine 0 sampleMotorFields (selector [2, 0]))
        = [motorStateOfGroup (sampleMotorFields 0), motorStateOfGroup (sampleMotorFields 2)]
    ∧ parseMotorsResponse (motorsStateReplyLine 0 sampleMotorFields (selector [2, 0]))
        ≠ [motorStateOfGroup (sampleMotorFields 2), motorStateOfGroup (sampleMotorFields 0)] := by
  refine ⟨rfl, rfl, by decide⟩

/-- C6 (amended): the result sequence of the read-style operations aligns
element-for-element with the *selected indices in ascending (bit) order*;
equivalently with the caller's passed order exactly when the indices are
passed strictly ascending.  Proved for `readMotors`, `readDigitalSensors`
and `readAnalogSensors` against the controller reply model. -/
theorem clearcore_c6_request_order :
    (∀ (motors : List Nat) (fields : Nat → List String) (idEcho : Nat),
      motors ≠ [] → List.Pairwise (· < ·) motors → (∀ m ∈ motors, m < 32) →
      (∀ m ∈ motors, (fields m).length = 7 ∧ ∀ f ∈ fields m, semiFree f) →
      parseMotorsResponse (motorsStateReplyLine idEcho fields (selector motors))
        = motors.map (fun m => motorStateOfGroup (fields m)))
    ∧ (∀ (sensors : List Nat) (g : Nat → String) (idEcho : Nat),
      sensors ≠ [] → List.Pairwise (· < ·) sensors → (∀ s ∈ sensors, s < 32) →
      (∀ s ∈ sensors, semiFree (g s)) →
      parseDigitalSensorsResponse (dsensorsReplyLine idEcho g (selector sensors))
        = sensors.map (fun s => g s == "1"))
    ∧ (∀ (sensors : List Nat) (g : Nat → String) (idEcho : Nat),
      sensors ≠ [] → List.Pairwise (· < ·) sensors → (∀ s ∈ sensors, s < 32) →
      (∀ s ∈ sensors, semiFree (g s)) →
      parseAnalogSensorsResponse (asensorsReplyLine idEcho g (selector sensors))
        = sensors.map (fun s => jsParseInt (g s))) := by
  refine ⟨?_, ?_, ?_⟩
  · intro motors fields idEcho hne hsort hlt hf
    unfold parseMotorsResponse motorsStateReplyLine
    rw [setBits_selector motors hsort hlt]
    have hpne : (motors.map fields).flatten ≠ [] := by
      cases motors with
      | nil => exact absurd rfl hne
      | cons m ms =>
        have h7 : (fields m).length = 7 := (hf m (List.mem_cons_self m ms)).1
        simp only [List.map_cons, List.flatten_cons]
        cases hfm : fields m with
        | nil => rw [hfm] at h7; simp at h7
        | cons a as => simp
    have hsf : ∀ f ∈ toString idEcho :: "0" :: (motors.map fields).flatten, semiFree f := by
      intro f hfm
      rcases List.mem_cons.1 hfm with h | h
      · subst h; exact semiFree_natToString idEcho
      rcases List.mem_cons.1 h with h | h
      · subst h; decide
      · rcases List.mem_flatten.1 h with ⟨g, hg, hfg⟩
        rcases List.mem_map.1 hg with ⟨m, hm, rfl⟩
        exact (hf m hm).2 f hfg
    rw [replyLine_eq_joinSemi _ _ hpne,
      jsSplit_joinSemi_trailing _ (by simp) hsf]
    simp only [List.cons_append]
    rw [jsSlice2Neg1_concat, parseMotorGroups_flatten, List.map_map]
    · rfl
    · intro g hg
      rcases List.mem_map.1 hg with ⟨m, hm, rfl⟩
      exact (hf m hm).1
  · intro sensors g idEcho hne hsort hlt hg
    unfold parseDigitalSensorsResponse dsensorsReplyLine
    rw [setBits_selector sensors hsort hlt]
    have hpne : sensors.map g ≠ [] := by
      cases sensors with
      | nil => exact absurd rfl hne
      | cons s ss => simp
    have hsf : ∀ f ∈ toString idEcho :: "0" :: sensors.map g, semiFree f := by
      intro f hfm
      rcases List.mem_cons.1 hfm with h | h
      · subst h; exact semiFree_natToString idEcho
      rcases List.mem_cons.1 h with h | h
      · subst h; decide
      · rcases List.mem_map.1 h with ⟨s, hs, rfl⟩
        exact hg s hs
    rw [replyLine_eq_joinSemi _ _ hpne,
      jsSplit_joinSemi_trailing _ (by simp) hsf]
    simp only [List.cons_append]
    rw [jsSlice2Neg1_concat, List.map_map]
    rfl
  · intro sensors g idEcho hne hsort hlt hg
    unfold parseAnalogSensorsResponse asensorsReplyLine
    rw [setBits_selector sensors hsort hlt]
    have hpne : sensors.map g ≠ [] := by
      cases sensors with
      | nil => exact absurd rfl hne
      | cons s ss => simp
    have hsf : ∀ f ∈ toString idEcho :: "0" :: sensors.map g, semiFree f := by
      intro f hfm
      rcases List.mem_cons.1 hfm with h | h
      · subst h; exact semiFree_natToString idEcho
      rcases List.mem_cons.1 h with h | h
      · subst h; decide
      · rcases List.mem_map.1 h with ⟨s, hs, rfl⟩
        exact hg s hs
    rw [replyLine_eq_joinSemi _ _ hpne,
      jsSplit_joinSemi_trailing _ (by simp) hsf]
    simp only [List.cons_append]
    rw [jsSlice2Neg1_concat, List.map_map]
    rfl

/-- C6 witness: the quickstart test's `readMotors(0,2)` scenario,
instantiating the amended theorem for motors and digital sensors at
ascending index lists. -/
theorem clearcore_c6_request_order_witness :
    parseMotorsResponse (motorsStateReplyLine 0 sampleMotorFields (selector [0, 2]))
      = [0, 2].map (fun m => motorStateOfGroup (sampleMotorFields m))
    ∧ parseDigitalSensorsResponse
        (dsensorsReplyLine 0 (fun s => if s = 0 then "1" else "0") (selector [0, 2]))
      = [0, 2].map (fun s => (if s = 0 then "1" else "0") == "1") :=
  ⟨clearcore_c6_request_order.1 [0, 2] sampleMotorFields 0
      (by decide) (by decide) (by decide) (by decide),
    clearcore_c6_request_order.2.1 [0, 2] (fun s => if s = 0 then "1" else "0") 0
      (by decide) (by decide) (by decide) (by decide)⟩

/-- Adding elements through the JavaScript-`Set` model preserves exactly
the union of memberships. -/
theorem mem_foldl_setAdd (st ms : List Nat) (i : Nat) :
    i ∈ ms.foldl setAdd st ↔ i ∈ st ∨ i ∈ ms := by
  induction ms generalizing st with
  | nil => simp
  | cons m rest ih =>
    simp only [List.foldl_cons, ih, List.mem_cons]
    unfold setAdd
    by_cases h : m ∈ st
    · rw [if_pos h]
      constructor
      · rintro (h1 | h1)
        · exact Or.inl h1
        · exact Or.inr (Or.inr h1)
      · rintro (h1 | h1 | h1)
        · exact Or.inl h1
        · exact Or.inl (h1 ▸ h)
        · exact Or.inr h1
    · rw [if_neg h]
      simp only [List.mem_append, List.mem_singleton]
      tauto

/-- Deleting elements through the JavaScript-`Set` model keeps every
member that was not among the deleted indices. -/
theorem mem_foldl_setDelete_of_not_mem (ms : List Nat) (st : List Nat) (i : Nat)
    (hst : i ∈ st) (hni : i ∉ ms) : i ∈ ms.foldl setDelete st := by
  induction ms generalizing st with
  | nil => exact hst
  | cons m rest ih =>
    have him : i ≠ m := fun h => hni (h ▸ List.mem_cons_self m rest)
    have h1 : i ∈ st.erase m := (List.mem_erase_of_ne him).2 hst
    exact ih (st.erase m) h1 (fun h => hni (List.mem_cons_of_mem m h))

/-- Any member below 32 of the index list contributes its bit to the
selector. -/
theorem testBit_selector_of_mem (ms : List Nat) (i : Nat) (hi : i < 32)
    (hmem : i ∈ ms) : (selector ms).testBit i = true := by
  unfold selector
  rw [testBit_selector_foldl]
  simp only [Nat.zero_testBit, Bool.false_or, List.any_eq_true]
  exact ⟨i, hmem, by simp [Nat.mod_eq_of_lt hi]⟩

/-- C7: `enableMotors` and `disableMotors` mutate the enabled-motor set
first (adding, resp. removing, every passed index) and then send one
`MOTORS_ENABLE` command whose bitmask encodes the *entire* resulting set,
never only the just-changed indices: after `enableMotors` every index
already in the set (and every just-added index) below 32 has its bit set;
after `disableMotors` every index of the set that was not among the
removed ones keeps its bit set; and `enableMotors(0)` then
`enableMotors(2)` sends bitmask 5 on the second call. -/
theorem clearcore_c7_enable_full_set :
    (∀ (st ms : List Nat) (i : Nat), i < 32 → i ∈ st ∨ i ∈ ms →
        (selector (enableMotors st ms).1).testBit i = true)
    ∧ (∀ st ms : List Nat, enableMotors st ms
          = (ms.foldl setAdd st, setEnabledMotorsCmd (ms.foldl setAdd st)))
    ∧ (∀ (st ms : List Nat) (i : Nat), i < 32 → i ∈ st → i ∉ ms →
        (selector (disableMotors st ms).1).testBit i = true)
    ∧ (∀ st ms : List Nat, disableMotors st ms
          = (ms.foldl setDelete st, setEnabledMotorsCmd (ms.foldl setDelete st)))
    ∧ (enableMotors (enableMotors [] [0]).1 [2]).2 = "MOTORS_ENABLE;1;5" := by
  refine ⟨?_, fun st ms => rfl, ?_, fun st ms => rfl, rfl⟩
  · intro st ms i hi hmem
    have h1 : i ∈ (enableMotors st ms).1 := by
      show i ∈ ms.foldl setAdd st
      exact (mem_foldl_setAdd st ms i).2 hmem
    exact testBit_selector_of_mem _ i hi h1
  · intro st ms i hi hin hnm
    have h1 : i ∈ (disableMotors st ms).1 := by
      show i ∈ ms.foldl setDelete st
      exact mem_foldl_setDelete_of_not_mem ms st i hin hnm
    exact testBit_selector_of_mem _ i hi h1

/-- C7 witness: with motor 0 already enabled, enabling motor 2 keeps
motor 0's bit set in the wire bitmask, and disabling motor 2 out of
`{0, 2}` still keeps motor 0's bit set. -/
theorem clearcore_c7_enable_full_set_witness :
    (selector (enableMotors [0] [2]).1).testBit 0 = true
    ∧ (selector (disableMotors [0, 2] [2]).1).testBit 0 = true :=
  ⟨clearcore_c7_enable_full_set.1 [0] [2] 0 (by decide) (Or.inl (by decide)),
    clearcore_c7_enable_full_set.2.2.1 [0, 2] [2] 0
      (by decide) (by decide) (by decide)⟩

/-- C8: `disableAllMotors` sends `MOTORS_ENABLE;1;0` and leaves the
enabled-motor set untouched, so a subsequent `enableMotors(2)` after
`enableMotors(0)`/`disableAllMotors()` derives its selector from the
stale set and re-sends bitmask 5 — motor 0 reappears. -/
theorem clearcore_c8_disable_all_stale_set :
    (∀ st : List Nat, disableAllMotors st = (st, "MOTORS_ENABLE;1;0"))
    ∧ (enableMotors (disableAllMotors (enableMotors [] [0]).1).1 [2]).2
        = "MOTORS_ENABLE;1;5" :=
  ⟨fun _ => rfl, rfl⟩

/-- C8 witness: disabling all motors with motor 3 enabled leaves the set
holding motor 3 and sends the zero bitmask. -/
theorem clearcore_c8_disable_all_stale_set_witness :
    disableAllMotors [3] = ([3], "MOTORS_ENABLE;1;0") :=
  clearcore_c8_disable_all_stale_set.1 [3]

/-- A four-plus-field command line is the `;`-join of its fields. -/
theorem cmd4_join (A B C : String) (T : List String) (hT : T ≠ []) :
    joinSemi (A :: B :: C :: T) = A ++ ";" ++ B ++ ";" ++ C ++ ";" ++ joinSemi T := by
  cases T with
  | nil => exact absurd rfl hT
  | cons t ts =>
    rw [joinSemi_cons_cons, joinSemi_cons_cons, joinSemi_cons_cons]
    simp [String.append_assoc]

/-- Joining per-target `a;b;c` triples equals joining the flattened field
list. -/
theorem joinSemi_map_flatten3 {α : Type} (f g h : α → String) (ms : List α)
    (hne : ms ≠ []) :
    joinSemi (ms.map (fun m => f m ++ ";" ++ g m ++ ";" ++ h m))
      = joinSemi ((ms.map (fun m => [f m, g m, h m])).flatten) := by
  induction ms with
  | nil => exact absurd rfl hne
  | cons m rest ih =>
    cases rest with
    | nil =>
      show f m ++ ";" ++ g m ++ ";" ++ h m = joinSemi [f m, g m, h m]
      simp only [joinSemi_cons_cons, joinSemi_singleton]
      simp [String.append_assoc]
    | cons m2 rest2 =>
      have ihr := ih (by simp)
      simp only [List.map_cons, List.flatten_cons, List.cons_append,
        List.nil_append] at ihr ⊢
      simp only [joinSemi_cons_cons] at ihr ⊢
      rw [ihr]
      simp [String.append_assoc]

/-- Joining per-target `a;b` pairs equals joining the flattened field
list. -/
theorem joinSemi_map_flatten2 {α : Type} (f g : α → String) (ms : List α)
    (hne : ms ≠ []) :
    joinSemi (ms.map (fun m => f m ++ ";" ++ g m))
      = joinSemi ((ms.map (fun m => [f m, g m])).flatten) := by
  induction ms with
  | nil => exact absurd rfl hne
  | cons m rest ih =>
    cases rest with
    | nil =>
      show f m ++ ";" ++ g m = joinSemi [f m, g m]
      simp only [joinSemi_cons_cons, joinSemi_singleton]
    | cons m2 rest2 =>
      have ihr := ih (by simp)
      simp only [List.map_cons, List.flatten_cons, List.cons_append,
        List.nil_append] at ihr ⊢
      simp only [joinSemi_cons_cons] at ihr ⊢
      rw [ihr]
      simp [String.append_assoc]

theorem length_flatten_map3 {α : Type} (f g h : α → String) (ms : List α) :
    ((ms.map (fun m => [f m, g m, h m])).flatten).length = 3 * ms.length := by
  induction ms with
  | nil => rfl
  | cons m rest ih =>
    simp only [List.map_cons, List.flatten_cons, List.length_append,
      List.length_cons, List.length_nil, ih]
    omega

theorem length_flatten_map2 {α : Type} (f g : α → String) (ms : List α) :
    ((ms.map (fun m => [f m, g m])).flatten).length = 2 * ms.length := by
  induction ms with
  | nil => rfl
  | cons m rest ih =>
    simp only [List.map_cons, List.flatten_cons, List.length_append,
      List.length_cons, List.length_nil, ih]
    omega

/-- C9 counterexample: `moveMotors` with one motor writes `4` in the
argument-count field, yet only 3 fields follow the bitmask — the claimed
equality "argumentCount = count of fields following the bitmask (= 3n)"
fails. -/
theorem clearcore_c9_counterexample :
    jsSplit (moveMotorsCmd [⟨0, 100, 1000, 10000⟩])
      = ["MOTORS_MOVE", "4", "1", "100", "1000", "10000"]
    ∧ ((["MOTORS_MOVE", "4", "1", "100", "1000", "10000"] : List String).drop 3).length = 3
    ∧ ("4" : String) ≠ toString (3 : Nat) :=
  ⟨rfl, rfl, by decide⟩

/-- C9 (amended): the argument-count field of every encoded command line
equals **one plus** the count of fields following the bitmask (it counts
the bitmask field itself): `1 + 3n` for `moveMotors`, `1 + 2n` for
`setMotorsVelocity`, `1 + n` for `writeDigitalPins`, and `2` for
`setPinsMode`. -/
theorem clearcore_c9_argument_count :
    (∀ ms : List MotorMoveParameters, ms ≠ [] →
      (jsSplit (moveMotorsCmd ms))[1]?
          = some (toString (1 + ((jsSplit (moveMotorsCmd ms)).drop 3).length))
      ∧ ((jsSplit (moveMotorsCmd ms)).drop 3).length = 3 * ms.length)
    ∧ (∀ ms : List MotorVelocityParameters, ms ≠ [] →
      (jsSplit (setMotorsVelocityCmd ms))[1]?
          = some (toString (1 + ((jsSplit (setMotorsVelocityCmd ms)).drop 3).length))
      ∧ ((jsSplit (setMotorsVelocityCmd ms)).drop 3).length = 2 * ms.length)
    ∧ (∀ ps : List DigitalPinWriteParameters, ps ≠ [] →
      (jsSplit (writeDigitalPinsCmd ps))[1]?
          = some (toString (1 + ((jsSplit (writeDigitalPinsCmd ps)).drop 3).length))
      ∧ ((jsSplit (writeDigitalPinsCmd ps)).drop 3).length = ps.length)
    ∧ (∀ (mode : Nat) (pins : List Nat),
      (jsSplit (setPinsModeCmd mode pins))[1]?
          = some (toString (1 + ((jsSplit (setPinsModeCmd mode pins)).drop 3).length))
      ∧ ((jsSplit (setPinsModeCmd mode pins)).drop 3).length = 1) := by
  refine ⟨?_, ?_, ?_, ?_⟩
  · intro ms hne
    have hTne : (ms.map (fun m =>
        [toString m.steps, toString m.velocity, toString m.acceleration])).flatten ≠ [] := by
      cases ms with
      | nil => exact absurd rfl hne
      | cons m rest => simp
    have hfields : jsSplit (moveMotorsCmd ms)
        = "MOTORS_MOVE" :: toString (1 + ms.length * 3)
            :: renderInt32 (selector (ms.map (fun m => m.id)))
            :: (ms.map (fun m =>
                [toString m.steps, toString m.velocity, toString m.acceleration])).flatten := by
      have h1 : moveMotorsCmd ms
          = joinSemi ("MOTORS_MOVE" :: toString (1 + ms.length * 3)
              :: renderInt32 (selector (ms.map (fun m => m.id)))
              :: (ms.map (fun m =>
                  [toString m.steps, toString m.velocity, toString m.acceleration])).flatten) := by
        unfold moveMotorsCmd
        rw [joinSemi_map_flatten3 _ _ _ ms hne, cmd4_join _ _ _ _ hTne]
        rfl
      rw [h1]
      apply jsSplit_joinSemi _ (by simp)
      intro f hfm
      rcases List.mem_cons.1 hfm with h | h
      · subst h; decide
      rcases List.mem_cons.1 h with h | h
      · subst h; exact semiFree_natToString _
      rcases List.mem_cons.1 h with h | h
      · subst h; exact semiFree_renderInt32 _
      · rcases List.mem_flatten.1 h with ⟨gg, hgg, hfg⟩
        rcases List.mem_map.1 hgg with ⟨m, _, rfl⟩
        rcases List.mem_cons.1 hfg with h | h
        · subst h; exact semiFree_intToString _
        rcases List.mem_cons.1 h with h | h
        · subst h; exact semiFree_intToString _
        rcases List.mem_cons.1 h with h | h
        · subst h; exact semiFree_intToString _
        · simp at h
    rw [hfields]
    have hlen := length_flatten_map3
      (fun m : MotorMoveParameters => toString m.steps)
      (fun m => toString m.velocity) (fun m => toString m.acceleration) ms
    constructor
    · simp only [List.getElem?_cons_succ, List.getElem?_cons_zero,
        List.drop_succ_cons, List.drop_zero, hlen]
      have : 1 + ms.length * 3 = 1 + 3 * ms.length := by omega
      rw [this]
    · simp only [List.drop_succ_cons, List.drop_zero]
      exact hlen
  · intro ms hne
    have hTne : (ms.map (fun m =>
        [toString m.velocity, toString m.acceleration])).flatten ≠ [] := by
      cases ms with
      | nil => exact absurd rfl hne
      | cons m rest => simp
    have hfields : jsSplit (setMotorsVelocityCmd ms)
        = "MOTORS_SET_VELOCITY" :: toString (1 + ms.length * 2)
            :: renderInt32 (selector (ms.map (fun m => m.id)))
            :: (ms.map (fun m =>
                [toString m.velocity, toString m.acceleration])).flatten := by
      have h1 : setMotorsVelocityCmd ms
          = joinSemi ("MOTORS_SET_VELOCITY" :: toString (1 + ms.length * 2)
              :: renderInt32 (selector (ms.map (fun m => m.id)))
              :: (ms.map (fun m =>
                  [toString m.velocity, toString m.acceleration])).flatten) := by
        unfold setMotorsVelocityCmd
        rw [joinSemi_map_flatten2 _ _ ms hne, cmd4_join _ _ _ _ hTne]
        rfl
      rw [h1]
      apply jsSplit_joinSemi _ (by simp)
      intro f hfm
      rcases List.mem_cons.1 hfm with h | h
      · subst h; decide
      rcases List.mem_cons.1 h with h | h
      · subst h; exact semiFree_natToString _
      rcases List.mem_cons.1 h with h | h
      · subst h; exact semiFree_renderInt32 _
      · rcases List.mem_flatten.1 h with ⟨gg, hgg, hfg⟩
        rcases List.mem_map.1 hgg with ⟨m, _, rfl⟩
        rcases List.mem_cons.1 hfg with h | h
        · subst h; exact semiFree_intToString _
        rcases List.mem_cons.1 h with h | h
        · subst h; exact semiFree_intToString _
        · simp at h
    rw [hfields]
    have hlen := length_flatten_map2
      (fun m : MotorVelocityParameters => toString m.velocity)
      (fun m => toString m.acceleration) ms
    constructor
    · simp only [List.getElem?_cons_succ, List.getElem?_cons_zero,
        List.drop_succ_cons, List.drop_zero, hlen]
      have : 1 + ms.length * 2 = 1 + 2 * ms.length := by omega
      rw [this]
    · simp only [List.drop_succ_cons, List.drop_zero]
      exact hlen
  · intro ps hne
    have hTne : ps.map (fun p => if p.value then "1" else "0") ≠ [] := by
      cases ps with
      | nil => exact absurd rfl hne
      | cons p rest => simp
    have hfields : jsSplit (writeDigitalPinsCmd ps)
        = "DPINS_SET" :: toString (1 + ps.length)
            :: renderInt32 (selector (ps.map (fun p => p.id)))
            :: ps.map (fun p => if p.value then "1" else "0") := by
      have h1 : writeDigitalPinsCmd ps
          = joinSemi ("DPINS_SET" :: toString (1 + ps.length)
              :: renderInt32 (selector (ps.map (fun p => p.id)))
              :: ps.map (fun p => if p.value then "1" else "0")) := by
        unfold writeDigitalPinsCmd
        rw [cmd4_join _ _ _ _ hTne]
        rfl
      rw [h1]
      apply jsSplit_joinSemi _ (by simp)
      intro f hfm
      rcases List.mem_cons.1 hfm with h | h
      · subst h; decide
      rcases List.mem_cons.1 h with h | h
      · subst h; exact semiFree_natToString _
      rcases List.mem_cons.1 h with h | h
      · subst h; exact semiFree_renderInt32 _
      · rcases List.mem_map.1 h with ⟨p, _, rfl⟩
        cases p.value
        · decide
        · decide
    rw [hfields]
    constructor
    · simp only [List.getElem?_cons_succ, List.getElem?_cons_zero,
        List.drop_succ_cons, List.drop_zero, List.length_map]
    · simp only [List.drop_succ_cons, List.drop_zero, List.length_map]
  · intro mode pins
    have hfields : jsSplit (setPinsModeCmd mode pins)
        = ["PINS_MODE_SET", "2", renderInt32 (selector pins), toString mode] := by
      have h1 : setPinsModeCmd mode pins
          = joinSemi ["PINS_MODE_SET", "2", renderInt32 (selector pins), toString mode] := by
        unfold setPinsModeCmd
        rw [cmd4_join _ _ _ _ (by simp : [toString mode] ≠ [])]
        rfl
      rw [h1]
      apply jsSplit_joinSemi _ (by simp)
      intro f hfm
      rcases List.mem_cons.1 hfm with h | h
      · subst h; decide
      rcases List.mem_cons.1 h with h | h
      · subst h; decide
      rcases List.mem_cons.1 h with h | h
      · subst h; exact semiFree_renderInt32 _
      rcases List.mem_cons.1 h with h | h
      · subst h; exact semiFree_natToString _
      · simp at h
    rw [hfields]
    refine ⟨?_, ?_⟩
    · simp only [List.getElem?_cons_succ, List.getElem?_cons_zero,
        List.drop_succ_cons, List.drop_zero, List.length_cons, List.length_nil]
      rfl
    · rfl

/-- C9 witness: the quickstart test's `moveMotors` call — one motor, wire
count field `4` = 1 + the 3 fields after the bitmask — and a two-pin
`setPinsMode` call with count field `2` = 1 + the single mode field. -/
theorem clearcore_c9_argument_count_witness :
    ((jsSplit (moveMotorsCmd [⟨0, 100, 1000, 10000⟩]))[1]?
        = some (toString
            (1 + ((jsSplit (moveMotorsCmd [⟨0, 100, 1000, 10000⟩])).drop 3).length))
      ∧ ((jsSplit (moveMotorsCmd [⟨0, 100, 1000, 10000⟩])).drop 3).length
        = 3 * ([⟨0, 100, 1000, 10000⟩] : List MotorMoveParameters).length)
    ∧ ((jsSplit (setPinsModeCmd 1 [0, 2]))[1]?
        = some (toString (1 + ((jsSplit (setPinsModeCmd 1 [0, 2])).drop 3).length))
      ∧ ((jsSplit (setPinsModeCmd 1 [0, 2])).drop 3).length = 1) :=
  ⟨clearcore_c9_argument_count.1 [⟨0, 100, 1000, 10000⟩] (by simp),
    clearcore_c9_argument_count.2.2.2 1 [0, 2]⟩

/-- C10 counterexample: for the reply line `0;0;1;0` — no trailing `;` —
the decoded payload is `["1"]`: the final payload field `"0"` has been
dropped, contradicting the claim that it is preserved. -/
theorem clearcore_c10_counterexample :
    decodePayload "0;0;1;0" = ["1"]
    ∧ (["1"] : List String) ≠ ["1", "0"] :=
  ⟨rfl, by decide⟩

/-- C10 (amended): decoding splits on `;`, slices away the identifier and
status fields, and **unconditionally** drops the last remaining field
(`slice(2, -1)`).  When the line carries the protocol's trailing `;` the
dropped field is the empty trailing field, so the payload survives
intact; without a trailing `;` the last payload field is lost. -/
theorem clearcore_c10_slice_payload (idf statusf : String) (payload : List String)
    (h1 : semiFree idf) (h2 : semiFree statusf)
    (h3 : ∀ f ∈ payload, semiFree f) :
    decodePayload (joinSemi (idf :: statusf :: payload) ++ ";") = payload
    ∧ decodePayload (joinSemi (idf :: statusf :: payload)) = payload.dropLast := by
  have hall : ∀ f ∈ idf :: statusf :: payload, semiFree f := by
    intro f hfm
    rcases List.mem_cons.1 hfm with h | h
    · subst h; exact h1
    rcases List.mem_cons.1 h with h | h
    · subst h; exact h2
    · exact h3 f h
  constructor
  · unfold decodePayload
    rw [jsSplit_joinSemi_trailing _ (by simp) hall]
    simp only [List.cons_append]
    exact jsSlice2Neg1_concat idf statusf "" payload
  · unfold decodePayload
    rw [jsSplit_joinSemi _ (by simp) hall]
    simp [jsSlice2Neg1]

/-- C10 witness: the digital-sensor test line with its trailing `;`
decodes to the full payload `["1", "0"]`; the same line without the
trailing `;` loses the final `"0"`. -/
theorem clearcore_c10_slice_payload_witness :
    decodePayload (joinSemi ["0", "0", "1", "0"] ++ ";") = ["1", "0"]
    ∧ decodePayload (joinSemi ["0", "0", "1", "0"]) = (["1", "0"] : List String).dropLast :=
  clearcore_c10_slice_payload "0" "0" ["1", "0"]
    (by decide) (by decide) (by decide)

end ClearCore
